import Mathlib

/-
Verification of the go-rpcgen interface-to-stub code generation engine.
The definitions below are a shallow embedding of the generator found in the
repository (package main of the rpcgen tool): the AST fragments it consumes,
the `types` traversal, `formatType`, `VisitMethodList`, the declaration walk,
and the template rendering.  Go strings are modelled as Lean strings; machine
identifiers are ASCII, so the byte-level first-character upper-casing of the
source is modelled at character granularity.  Fatal exits (`fatalNode`,
`fatalf`, `panic`) are modelled as `Except.error`.
-/

/-- Source positions (token offsets); `fatalNode` reports these. -/
abbrev Pos := Nat

/-- Go type expressions, as the shapes the generator's `types` function
dispatches on: identifier, pointer, qualified selector, map, array/slice,
plus the unsupported shapes that make `types` panic. -/
inductive Expr where
  | ident (name : String)
  | star (x : Expr)
  | selector (x : Expr) (sel : String)
  | mapType (key value : Expr)
  | arrayType (len : Option Nat) (elt : Expr)
  | funcType
  | chanType
  | structType
deriving DecidableEq

/-- Errors that abort the generator: `fatalNode` diagnostics and the
internal panic of `types` on an unknown expression node. -/
inductive Err where
  | unnamedField (pos : Pos)
  | missingError (pos : Pos) (methodName : String)
  | unknownExpr
deriving DecidableEq

/-- Structural split of a character list on a separator character. -/
def splitOnChar (c : Char) : List Char → List (List Char)
  | [] => [[]]
  | x :: xs =>
    match splitOnChar c xs with
    | [] => if x = c then [[], []] else [[x]]
    | g :: gs => if x = c then [] :: g :: gs else (x :: g) :: gs

/-- Split a string on a single-character separator (strings.Split). -/
def splitStr (c : Char) (s : String) : List String :=
  (splitOnChar c s.toList).map String.mk

/-- filepath.Base restricted to the slash-separated import paths the
generator feeds it. -/
def filepathBase (p : String) : String :=
  match (splitStr '/' p).reverse with
  | [] => p
  | x :: _ => x

/-- The qualifier of a dotted type name: strings.SplitN(name, ".", 2)
followed by the len(parts) > 1 test. -/
def qualifierOf (tn : String) : Option String :=
  match splitStr '.' tn with
  | [] => none
  | [_] => none
  | q :: _ :: _ => some q

/-- strings.ToUpper(name[0:1]) + name[1:] at character granularity. -/
def upperFirst (s : String) : String :=
  match s.toList with
  | [] => ""
  | c :: rest => String.mk (c.toUpper :: rest)

/-- Insertion into the import set (map[string]bool key insertion). -/
def insertKey (s : List String) (k : String) : List String :=
  if k ∈ s then s else s ++ [k]

/-- One parameter/result field: bound identifier names sharing one type
expression, plus its source position (`ast.FieldNode`). -/
structure FieldNode where
  names : List String
  typ : Expr
  pos : Pos
deriving DecidableEq

/-- One import declaration of the parsed source file (`ast.ImportSpec`),
with path already unquoted. -/
structure ImportSpec where
  name : Option String
  path : String
deriving DecidableEq

/-- The generator's `Type` record (renamed: `Type` is a Lean keyword).
FieldNode `Type` of the source is `Typ` here. -/
structure Ty where
  Names : List String
  LowerNames : List String
  Typ : String
deriving DecidableEq

/-- The generator's `Method` record. -/
structure Method where
  Name : String
  Parameters : List Ty
  Results : List Ty
deriving DecidableEq

/-- `printer.Fprint` on the supported type-expression shapes: a faithful
reprint of the original expression. -/
def printExpr : Expr → String
  | .ident n => n
  | .star x => "*" ++ printExpr x
  | .selector x sel => printExpr x ++ "." ++ sel
  | .mapType k v => "map[" ++ printExpr k ++ "]" ++ printExpr v
  | .arrayType none e => "[]" ++ printExpr e
  | .arrayType (some n) e => "[" ++ toString n ++ "]" ++ printExpr e
  | .funcType => "func()"
  | .chanType => "chan"
  | .structType => "struct"

/-- The recursive `types` collector; the default branch of the source
switch is a panic, modelled as `Err.unknownExpr`. -/
def types : Expr → Except Err (List String)
  | .star x => types x
  | .selector x sel =>
    match types x with
    | .error e => .error e
    | .ok xs => .ok [String.intercalate "." (xs ++ [sel])]
  | .mapType k v =>
    match types k with
    | .error e => .error e
    | .ok ks =>
      match types v with
      | .error e => .error e
      | .ok vs => .ok (ks ++ vs)
  | .arrayType _ e => types e
  | .ident n => .ok [n]
  | .funcType => .error .unknownExpr
  | .chanType => .error .unknownExpr
  | .structType => .error .unknownExpr

/-- The expression shapes `types` recognizes. -/
def supported : Expr → Bool
  | .ident _ => true
  | .star x => supported x
  | .selector x _ => supported x
  | .mapType k v => supported k && supported v
  | .arrayType _ e => supported e
  | .funcType => false
  | .chanType => false
  | .structType => false

/-- The import-registration loop body of `formatType` for one qualifier:
for each import in CheckImports, an explicit alias equal to the qualifier
registers "alias path"; otherwise a matching last path segment registers
the bare path. -/
def registerQualifier (ci : List ImportSpec) (s : List String) (q : String) : List String :=
  match ci with
  | [] => s
  | imp :: rest =>
    let s2 :=
      match imp.name with
      | some al =>
        if al = q then insertKey s (al ++ " " ++ imp.path)
        else if filepathBase imp.path = q then insertKey s imp.path else s
      | none => if filepathBase imp.path = q then insertKey s imp.path else s
    registerQualifier rest s2 q

/-- Registration over the list of type names collected from one field. -/
def regNames (ci : List ImportSpec) (s : List String) : List String → List String
  | [] => s
  | tn :: rest =>
    regNames ci
      (match qualifierOf tn with
       | some q => registerQualifier ci s q
       | none => s) rest

/-- The import side effect of `formatType` on one field. -/
def regFieldImports (ci : List ImportSpec) (imps : List String) (field : FieldNode) : List String :=
  match types field.typ with
  | .error _ => imps
  | .ok tns => regNames ci imps tns

/-- The pure part of `formatType`: the unnamed-field check, the `types`
traversal (whose panic aborts), and the built `Type` record. -/
def fmtTy (field : FieldNode) : Except Err Ty :=
  if field.names = [] then .error (.unnamedField field.pos)
  else
    match types field.typ with
    | .error e => .error e
    | .ok _ => .ok ⟨field.names.map upperFirst, field.names, printExpr field.typ⟩

/-- `InterfaceGen.formatType`: produces the Type record and the
updated import set, or aborts. -/
def formatType (ci : List ImportSpec) (imps : List String) (field : FieldNode) :
    Except Err (Ty × List String) :=
  match fmtTy field with
  | .error e => .error e
  | .ok t => .ok (t, regFieldImports ci imps field)

/-- One entry of an interface method list: a named method with a function
signature (`*ast.FuncType`, result list possibly absent), or anything else
(an embedded interface name). -/
inductive Entry where
  | method (name : String) (pos : Pos) (params : List FieldNode) (results : Option (List FieldNode))
  | embedded (pos : Pos) (te : Expr)
deriving DecidableEq

/-- The mutable extraction state: `r.Methods` and `r.Imports`. -/
structure GenState where
  Methods : List Method
  Imports : List String
deriving DecidableEq

/-- Monadic left fold over `Except`, short-circuiting at the first error
(each Go loop around a fatal call). -/
def foldE (g : σ → α → Except Err σ) (init : σ) : List α → Except Err σ
  | [] => .ok init
  | a :: l =>
    match g init a with
    | .error e => .error e
    | .ok s => foldE g s l

/-- Sequential translation of a list through a fallible function. -/
def mapE (g : α → Except Err β) : List α → Except Err (List β)
  | [] => .ok []
  | a :: l =>
    match g a with
    | .error e => .error e
    | .ok b =>
      match mapE g l with
      | .error e => .error e
      | .ok bs => .ok (b :: bs)

/-- The parameter loop body of `VisitMethodList`. -/
def paramStep (ci : List ImportSpec) (acc : List Ty × List String) (f : FieldNode) :
    Except Err (List Ty × List String) :=
  match formatType ci acc.2 f with
  | .error e => .error e
  | .ok (t, imps) => .ok (acc.1 ++ [t], imps)

/-- The result loop body of `VisitMethodList`: a result whose formatted
type is "error" sets hasError and is excluded; others are appended. -/
def resultStep (ci : List ImportSpec) (acc : List Ty × Bool × List String) (f : FieldNode) :
    Except Err (List Ty × Bool × List String) :=
  match formatType ci acc.2.2 f with
  | .error e => .error e
  | .ok (t, imps) =>
    if t.Typ = "error" then .ok (acc.1, true, imps)
    else .ok (acc.1 ++ [t], acc.2.1, imps)

/-- Processing of one method-list entry: the type switch on `m.Type`
(only `*ast.FuncType` is handled), parameter and result translation, and
the hasError check feeding `fatalNode`. -/
def visitEntry (ci : List ImportSpec) (st : GenState) : Entry → Except Err GenState
  | .embedded _ _ => .ok st
  | .method name pos params results =>
    match foldE (paramStep ci) ([], st.Imports) params with
    | .error e => .error e
    | .ok (ps, imps1) =>
      match foldE (resultStep ci) ([], false, imps1) (results.getD []) with
      | .error e => .error e
      | .ok (rs, hasError, imps2) =>
        if hasError then .ok ⟨st.Methods ++ [⟨name, ps, rs⟩], imps2⟩
        else .error (.missingError pos name)

/-- `InterfaceGen.VisitMethodList` over the entries of the interface. -/
def VisitMethodList (ci : List ImportSpec) (st : GenState) (entries : List Entry) :
    Except Err GenState :=
  foldE (visitEntry ci) st entries

/-- The underlying type of a `TypeSpec` as the walk distinguishes it:
an interface type with its method-list entries, or something else. -/
inductive TypeBody where
  | interfaceType (entries : List Entry)
  | otherBody
deriving DecidableEq

/-- The declarations `ast.Walk` feeds `RPCGen.Visit`: import specs,
type specs, everything else. -/
inductive Decl where
  | importDecl (i : ImportSpec)
  | typeSpec (name : String) (body : TypeBody)
  | otherDecl
deriving DecidableEq

/-- The walker state: `RPCGen`'s accumulating fields. -/
structure WalkState where
  gs : GenState
  checkImports : List ImportSpec
deriving DecidableEq

/-- `RPCGen.Visit`: imports are remembered; a `TypeSpec` whose name equals
the requested type hands its interface body to `VisitMethodList`. -/
def Visit (typeName : String) (ws : WalkState) : Decl → Except Err WalkState
  | .importDecl i => .ok ⟨ws.gs, ws.checkImports ++ [i]⟩
  | .typeSpec name body =>
    if name = typeName then
      match body with
      | .interfaceType entries =>
        match VisitMethodList ws.checkImports ws.gs entries with
        | .error e => .error e
        | .ok gs2 => .ok ⟨gs2, ws.checkImports⟩
      | .otherBody => .ok ws
    else .ok ws
  | .otherDecl => .ok ws

/-- `ast.Walk(gen, f)` over the file's declarations in source order. -/
def walkFile (typeName : String) (imports0 : List String) (decls : List Decl) :
    Except Err WalkState :=
  foldE (Visit typeName) ⟨⟨[], imports0⟩, []⟩ decls

/-- The imports map seeded from the --imports flag (comma-separated). -/
def initImports (importsFlag : String) : List String :=
  if importsFlag = "" then [] else (splitStr ',' importsFlag).foldl insertKey []

/-- The generation model handed to the template (`RPCGen`'s exported
fields; the source's `Type` field is `Typ` here). -/
structure Gen where
  Service : String
  Typ : String
  Package : String
  Methods : List Method
  Imports : List String
  RPCType : String
deriving DecidableEq

/-- The template helper `FieldList`. -/
def FieldList (fields : List Ty) (pre : String) (delim : String)
    (withTypes : Bool) (public : Bool) : String :=
  String.intercalate delim (fields.map (fun p =>
    (String.intercalate ", "
      ((if public then p.Names else p.LowerNames).map (fun n => pre ++ n)))
      ++ (if withTypes then " " ++ p.Typ else "")))

/-- Concatenation of a list of strings. -/
def joinStrs : List String → String
  | [] => ""
  | a :: l => a ++ joinStrs l

/-- One line per import key in the rendered import block. -/
def importLines (imps : List String) : String :=
  joinStrs (imps.map (fun k => "  \"" ++ k ++ "\"\n"))

/-- The per-method server-side template block: request struct, response
struct, dispatcher method. -/
def serverGroup (ty : String) (m : Method) : String :=
  "\ntype " ++ ty ++ m.Name ++ "Request struct \x7b\n\t"
    ++ FieldList m.Parameters "" "\n\t" true true
  ++ "\n\x7d\n\ntype " ++ ty ++ m.Name ++ "Response struct \x7b\n\t"
    ++ FieldList m.Results "" "\n\t" true true
  ++ "\n\x7d\n\nfunc (s *" ++ ty ++ "Service) " ++ m.Name
    ++ "(request *" ++ ty ++ m.Name ++ "Request, response *" ++ ty ++ m.Name
    ++ "Response) (err error) \x7b\n\t"
  ++ FieldList m.Results "response." ", " false true
  ++ (if m.Results.isEmpty then "" else ", ")
  ++ "err = s.impl." ++ m.Name ++ "("
  ++ FieldList m.Parameters "request." ", " false true
  ++ ")\n\treturn\n\x7d\n"

/-- The per-method client-side template block: the proxy method. -/
def clientGroup (ty service : String) (m : Method) : String :=
  "\nfunc (_c *" ++ ty ++ "Client) " ++ m.Name ++ "("
    ++ FieldList m.Parameters "" ", " true false
  ++ ") (" ++ FieldList m.Results "" ", " true false
  ++ (if m.Results.isEmpty then "" else ", ")
  ++ "err error) \x7b\n\t_request := &" ++ ty ++ m.Name ++ "Request\x7b"
    ++ FieldList m.Parameters "" ", " false false
  ++ "\x7d\n\t_response := &" ++ ty ++ m.Name ++ "Response\x7b\x7d\n\terr = _c.client.Call(\""
    ++ service ++ "." ++ m.Name
  ++ "\", _request, _response)\n\treturn "
  ++ FieldList m.Results "_response." ", " false true
  ++ (if m.Results.isEmpty then "" else ", ")
  ++ "err\n\x7d\n"

/-- The template's first `range .Methods` loop. -/
def serverBlocks (ty : String) : List Method → String
  | [] => ""
  | m :: ms => serverGroup ty m ++ serverBlocks ty ms

/-- The template's second `range .Methods` loop. -/
def clientBlocks (ty service : String) : List Method → String
  | [] => ""
  | m :: ms => clientGroup ty service m ++ clientBlocks ty service ms

/-- The template preamble up to and including the registration helper. -/
def renderHeader (g : Gen) : String :=
  "// Generated by go-rpcgen. Do not modify.\n\npackage " ++ g.Package
  ++ "\n\nimport (\n" ++ importLines g.Imports ++ ")\n\ntype " ++ g.Typ
  ++ "Service struct \x7b\n\timpl " ++ g.Typ
  ++ "\n\x7d\n\nfunc New" ++ g.Typ ++ "Service(impl " ++ g.Typ ++ ") *" ++ g.Typ
  ++ "Service \x7b\n\treturn &" ++ g.Typ
  ++ "Service\x7bimpl\x7d\n\x7d\n\nfunc Register" ++ g.Typ
  ++ "Service(server *rpc.Server, impl " ++ g.Typ
  ++ ") error \x7b\n\treturn server.RegisterName(\"" ++ g.Service
  ++ "\", New" ++ g.Typ ++ "Service(impl))\n\x7d\n"

/-- The client-type preamble between the two method loops. -/
def renderClientHeader (g : Gen) : String :=
  "\ntype " ++ g.Typ ++ "Client struct \x7b\n\tclient " ++ g.RPCType
  ++ "\n\x7d\n\nfunc Dial" ++ g.Typ ++ "Client(addr string) (*" ++ g.Typ
  ++ "Client, error) \x7b\n\tclient, err := rpc.Dial(\"tcp\", addr)\n\treturn &"
  ++ g.Typ ++ "Client\x7bclient\x7d, err\n\x7d\n\nfunc New" ++ g.Typ
  ++ "Client(client " ++ g.RPCType ++ ") *" ++ g.Typ
  ++ "Client \x7b\n\treturn &" ++ g.Typ
  ++ "Client\x7bclient\x7d\n\x7d\n\nfunc (_c *" ++ g.Typ
  ++ "Client) Close() error \x7b\n\treturn _c.client.Close()\n\x7d\n"

/-- Template execution: preamble, server blocks per method in order,
client preamble, client blocks per method in order. -/
def render (g : Gen) : String :=
  renderHeader g ++ serverBlocks g.Typ g.Methods
    ++ renderClientHeader g ++ clientBlocks g.Typ g.Service g.Methods

/-- The observable core of `main`: flag defaulting, the walk, model
assembly, and template execution producing the output text. -/
def runGen (typeName importsFlag packageFlag serviceFlag rpcClientType filePkg : String)
    (decls : List Decl) : Except Err (Gen × String) :=
  match walkFile typeName (initImports importsFlag) decls with
  | .error e => .error e
  | .ok ws =>
    let g : Gen :=
      { Service := if serviceFlag = "" then typeName else serviceFlag
        Typ := typeName
        Package := if packageFlag = "" then filePkg else packageFlag
        Methods := ws.gs.Methods
        Imports := ws.gs.Imports
        RPCType := rpcClientType }
    .ok (g, render g)

/-- Whether an `Except` is a success. -/
def isOkE : Except Err α → Bool
  | .ok _ => true
  | .error _ => false

/-- The model `Gen` of a run, without the rendered text. -/
def genOf (r : Except Err (Gen × String)) : Option Gen :=
  match r with
  | .ok (g, _) => some g
  | .error _ => none

/-- Whether some translated result has the formatted type "error". -/
def hasErrType : List Ty → Bool
  | [] => false
  | t :: ts => if t.Typ = "error" then true else hasErrType ts

/-- The translated results with the "error"-typed ones excluded. -/
def dropErrType : List Ty → List Ty
  | [] => []
  | t :: ts => if t.Typ = "error" then dropErrType ts else t :: dropErrType ts

/-- Per-entry translation, stated independently of the threaded state:
`none` for a skipped (non-function) entry, otherwise the translated
method or the error the entry raises. -/
def entryOut : Entry → Option (Except Err Method)
  | .embedded _ _ => none
  | .method name pos params results =>
    some (match mapE fmtTy params with
      | .error e => .error e
      | .ok ps =>
        match mapE fmtTy (results.getD []) with
        | .error e => .error e
        | .ok ts =>
          if hasErrType ts then .ok ⟨name, ps, dropErrType ts⟩
          else .error (.missingError pos name))

/-- Sequential per-entry translation of a whole method list. -/
def entriesOut : List Entry → Except Err (List Method)
  | [] => .ok []
  | e :: rest =>
    match entryOut e with
    | none => entriesOut rest
    | some (.error er) => .error er
    | some (.ok m) =>
      match entriesOut rest with
      | .error er => .error er
      | .ok ms => .ok (m :: ms)

/-- The names of the function-signature entries in declaration order. -/
def declaredNames : List Entry → List String
  | [] => []
  | .method n _ _ _ :: rest => n :: declaredNames rest
  | .embedded _ _ :: rest => declaredNames rest

/-- The registration performed on the import set by a list of fields. -/
def fieldsImports (ci : List ImportSpec) (imps : List String) : List FieldNode → List String
  | [] => imps
  | f :: fs => fieldsImports ci (regFieldImports ci imps f) fs

/-- The ("alias path" or bare) path component of an import-set key. -/
def keyPath (k : String) : String :=
  match splitStr ' ' k with
  | [] => k
  | [p] => p
  | _ :: p :: _ => p

/-- Occurrences of keys resolving to a given path in an import set. -/
def countOcc (target : String) : List String → Nat
  | [] => 0
  | k :: ks => (if keyPath k = target then 1 else 0) + countOcc target ks

/-- Whether a declaration is a type spec with the requested name. -/
def matchesType (typeName : String) : Decl → Bool
  | .typeSpec n _ => n = typeName
  | _ => false

lemma isOkE_iff {α : Type} {r : Except Err α} : isOkE r = true ↔ ∃ y, r = .ok y := by
  cases r <;> simp [isOkE]

lemma foldE_ok_elem {σ α : Type} {g : σ → α → Except Err σ} :
    ∀ {l : List α} {init r : σ}, foldE g init l = .ok r →
      ∀ {x : α}, x ∈ l → ∃ s s', g s x = .ok s' := by
  intro l
  induction l with
  | nil => intro init r h x hx; cases hx
  | cons a t ih =>
    intro init r h x hx
    simp only [foldE] at h
    cases hg : g init a with
    | error e => rw [hg] at h; cases h
    | ok s =>
      rw [hg] at h
      cases hx with
      | head => exact ⟨init, s, hg⟩
      | tail _ hx2 => exact ih h hx2

lemma foldE_preserve {σ α : Type} {g : σ → α → Except Err σ} (P : σ → Prop)
    (hg : ∀ s x s', g s x = .ok s' → P s → P s') :
    ∀ {l : List α} {init r : σ}, foldE g init l = .ok r → P init → P r := by
  intro l
  induction l with
  | nil => intro init r h hp; simp only [foldE] at h; cases h; exact hp
  | cons a t ih =>
    intro init r h hp
    simp only [foldE] at h
    cases hs : g init a with
    | error e => rw [hs] at h; cases h
    | ok s => rw [hs] at h; exact ih h (hg _ _ _ hs hp)

lemma mapE_ok_elem {α β : Type} {g : α → Except Err β} :
    ∀ {l : List α} {bs : List β}, mapE g l = .ok bs →
      ∀ {x : α}, x ∈ l → ∃ b, g x = .ok b := by
  intro l
  induction l with
  | nil => intro bs h x hx; cases hx
  | cons a t ih =>
    intro bs h x hx
    simp only [mapE] at h
    cases hg : g a with
    | error e => rw [hg] at h; cases h
    | ok b =>
      rw [hg] at h
      cases ht : mapE g t with
      | error e => rw [ht] at h; cases h
      | ok bs2 =>
        cases hx with
        | head => exact ⟨b, hg⟩
        | tail _ hx2 => exact ih ht hx2

lemma mapE_ok_of_forall {α β : Type} {g : α → Except Err β} :
    ∀ {l : List α}, (∀ x ∈ l, ∃ b, g x = .ok b) → ∃ bs, mapE g l = .ok bs := by
  intro l
  induction l with
  | nil => intro _; exact ⟨[], rfl⟩
  | cons a t ih =>
    intro h
    obtain ⟨b, hb⟩ := h a (List.mem_cons_self a t)
    obtain ⟨bs, hbs⟩ := ih (fun x hx => h x (List.mem_cons_of_mem _ hx))
    exact ⟨b :: bs, by simp only [mapE]; rw [hb, hbs]⟩

lemma fmtTy_ok_Typ {f : FieldNode} {t : Ty} (h : fmtTy f = .ok t) :
    t.Typ = printExpr f.typ := by
  unfold fmtTy at h
  by_cases hn : f.names = []
  · rw [if_pos hn] at h; cases h
  · rw [if_neg hn] at h
    cases ht : types f.typ with
    | error e => rw [ht] at h; cases h
    | ok ns => rw [ht] at h; cases h; rfl

lemma fmtTy_ok_struct {f : FieldNode} {t : Ty} (h : fmtTy f = .ok t) :
    t.Names = f.names.map upperFirst ∧ t.LowerNames = f.names ∧ f.names ≠ [] := by
  unfold fmtTy at h
  by_cases hn : f.names = []
  · rw [if_pos hn] at h; cases h
  · rw [if_neg hn] at h
    cases ht : types f.typ with
    | error e => rw [ht] at h; cases h
    | ok ns => rw [ht] at h; cases h; exact ⟨rfl, rfl, hn⟩

lemma fmtTy_ok_ne_nil {f : FieldNode} {t : Ty} (h : fmtTy f = .ok t) : f.names ≠ [] :=
  (fmtTy_ok_struct h).2.2

lemma paramsFold_eq (ci : List ImportSpec) :
    ∀ (fields : List FieldNode) (ps0 : List Ty) (imps0 : List String),
    foldE (paramStep ci) (ps0, imps0) fields =
      match mapE fmtTy fields with
      | .error e => .error e
      | .ok ts => .ok (ps0 ++ ts, fieldsImports ci imps0 fields) := by
  intro fields
  induction fields with
  | nil => intro ps0 imps0; simp [foldE, mapE, fieldsImports]
  | cons f fs ih =>
    intro ps0 imps0
    simp only [foldE, mapE, paramStep, formatType, fieldsImports]
    cases hf : fmtTy f with
    | error e => rfl
    | ok t =>
      dsimp only
      rw [ih]
      cases mapE fmtTy fs with
      | error e => rfl
      | ok ts => simp

lemma resultsFold_eq (ci : List ImportSpec) :
    ∀ (fields : List FieldNode) (rs0 : List Ty) (b0 : Bool) (imps0 : List String),
    foldE (resultStep ci) (rs0, b0, imps0) fields =
      match mapE fmtTy fields with
      | .error e => .error e
      | .ok ts => .ok (rs0 ++ dropErrType ts, b0 || hasErrType ts, fieldsImports ci imps0 fields) := by
  intro fields
  induction fields with
  | nil => intro rs0 b0 imps0; simp [foldE, mapE, fieldsImports, dropErrType, hasErrType]
  | cons f fs ih =>
    intro rs0 b0 imps0
    simp only [foldE, mapE, resultStep, formatType, fieldsImports]
    cases hf : fmtTy f with
    | error e => rfl
    | ok t =>
      dsimp only
      by_cases he : t.Typ = "error"
      · rw [if_pos he]
        dsimp only
        rw [ih]
        cases mapE fmtTy fs with
        | error e => rfl
        | ok ts => simp [dropErrType, hasErrType, if_pos he]
      · rw [if_neg he]
        dsimp only
        rw [ih]
        cases mapE fmtTy fs with
        | error e => rfl
        | ok ts => simp [dropErrType, hasErrType, if_neg he]

lemma visitEntry_method_eq (ci : List ImportSpec) (st : GenState) (n : String) (p : Pos)
    (params : List FieldNode) (results : Option (List FieldNode)) :
    visitEntry ci st (.method n p params results) =
      match mapE fmtTy params with
      | .error e => .error e
      | .ok ps =>
        match mapE fmtTy (results.getD []) with
        | .error e => .error e
        | .ok ts =>
          if hasErrType ts then
            .ok ⟨st.Methods ++ [⟨n, ps, dropErrType ts⟩],
                 fieldsImports ci (fieldsImports ci st.Imports params) (results.getD [])⟩
          else .error (.missingError p n) := by
  simp only [visitEntry]
  rw [paramsFold_eq]
  cases mapE fmtTy params with
  | error e => rfl
  | ok ps =>
    dsimp only
    rw [resultsFold_eq]
    cases mapE fmtTy (results.getD []) with
    | error e => rfl
    | ok ts => simp

lemma entriesOut_names :
    ∀ {entries : List Entry} {ms : List Method},
      entriesOut entries = .ok ms → ms.map Method.Name = declaredNames entries := by
  intro entries
  induction entries with
  | nil => intro ms h; cases h; rfl
  | cons e rest ih =>
    intro ms h
    cases e with
    | embedded p te =>
      simp only [entriesOut, entryOut] at h
      simp only [declaredNames]
      exact ih h
    | method n p params results =>
      simp only [entriesOut, entryOut, declaredNames] at h ⊢
      cases hp : mapE fmtTy params with
      | error er => rw [hp] at h; cases h
      | ok ps =>
        rw [hp] at h
        dsimp only at h
        cases hr : mapE fmtTy (results.getD []) with
        | error er => rw [hr] at h; cases h
        | ok ts =>
          rw [hr] at h
          dsimp only at h
          by_cases hbe : hasErrType ts = true
          · rw [if_pos hbe] at h
            dsimp only at h
            cases he : entriesOut rest with
            | error er => rw [he] at h; cases h
            | ok ms2 => rw [he] at h; cases h; simp [ih he]
          · rw [if_neg hbe] at h; cases h

lemma VML_spec :
    ∀ {entries : List Entry} {ci : List ImportSpec} {st st2 : GenState},
      VisitMethodList ci st entries = .ok st2 →
      ∃ ms, entriesOut entries = .ok ms ∧ st2.Methods = st.Methods ++ ms := by
  intro entries
  induction entries with
  | nil =>
    intro ci st st2 h
    simp only [VisitMethodList, foldE] at h
    cases h
    exact ⟨[], rfl, by simp⟩
  | cons e rest ih =>
    intro ci st st2 h
    simp only [VisitMethodList, foldE] at h
    cases e with
    | embedded p te =>
      simp only [visitEntry] at h
      obtain ⟨ms, h1, h2⟩ := ih h
      exact ⟨ms, by simp [entriesOut, entryOut, h1], h2⟩
    | method n p params results =>
      rw [visitEntry_method_eq] at h
      cases hp : mapE fmtTy params with
      | error er => rw [hp] at h; cases h
      | ok ps =>
        rw [hp] at h
        dsimp only at h
        cases hr : mapE fmtTy (results.getD []) with
        | error er => rw [hr] at h; cases h
        | ok ts =>
          rw [hr] at h
          dsimp only at h
          by_cases hbe : hasErrType ts = true
          · rw [if_pos hbe] at h
            dsimp only at h
            obtain ⟨ms, h1, h2⟩ := ih h
            refine ⟨⟨n, ps, dropErrType ts⟩ :: ms, ?_, ?_⟩
            · simp only [entriesOut, entryOut]
              rw [hp]
              dsimp only
              rw [hr]
              dsimp only
              rw [if_pos hbe, h1]
            · simp [h2]
          · rw [if_neg hbe] at h; cases h

lemma VML_ok_names {ci : List ImportSpec} {st st2 : GenState} {entries : List Entry}
    {n : String} {p : Pos} {params : List FieldNode} {results : Option (List FieldNode)}
    {f : FieldNode} (h : VisitMethodList ci st entries = .ok st2)
    (hmem : Entry.method n p params results ∈ entries)
    (hf : f ∈ params ∨ f ∈ results.getD []) : f.names ≠ [] := by
  obtain ⟨s, s', hv⟩ := foldE_ok_elem h hmem
  rw [visitEntry_method_eq] at hv
  cases hp : mapE fmtTy params with
  | error er => rw [hp] at hv; cases hv
  | ok ps =>
    rw [hp] at hv
    cases hr : mapE fmtTy (results.getD []) with
    | error er => rw [hr] at hv; cases hv
    | ok ts =>
      cases hf with
      | inl hfp =>
        obtain ⟨t, hft⟩ := mapE_ok_elem hp hfp
        exact fmtTy_ok_ne_nil hft
      | inr hfr =>
        obtain ⟨t, hft⟩ := mapE_ok_elem hr hfr
        exact fmtTy_ok_ne_nil hft

lemma hasErrType_false_of :
    ∀ {fields : List FieldNode} {ts : List Ty}, mapE fmtTy fields = .ok ts →
      (∀ f ∈ fields, ¬ printExpr f.typ = "error") → hasErrType ts = false := by
  intro fields
  induction fields with
  | nil => intro ts h _; cases h; rfl
  | cons f fs ih =>
    intro ts h hall
    simp only [mapE] at h
    cases hf : fmtTy f with
    | error er => rw [hf] at h; cases h
    | ok t =>
      rw [hf] at h
      cases hfs : mapE fmtTy fs with
      | error er => rw [hfs] at h; cases h
      | ok ts2 =>
        rw [hfs] at h
        cases h
        have ht : ¬ t.Typ = "error" := by
          rw [fmtTy_ok_Typ hf]
          exact hall f (List.mem_cons_self f fs)
        simp only [hasErrType, if_neg ht]
        exact ih hfs (fun x hx => hall x (List.mem_cons_of_mem _ hx))

lemma serverBlocks_eq (ty : String) :
    ∀ ms : List Method, serverBlocks ty ms = joinStrs (ms.map (serverGroup ty)) := by
  intro ms
  induction ms with
  | nil => rfl
  | cons m rest ih => simp only [serverBlocks, joinStrs, List.map, ih]

lemma clientBlocks_eq (ty service : String) :
    ∀ ms : List Method, clientBlocks ty service ms = joinStrs (ms.map (clientGroup ty service)) := by
  intro ms
  induction ms with
  | nil => rfl
  | cons m rest ih => simp only [clientBlocks, joinStrs, List.map, ih]

lemma mem_insertKey_self (s : List String) (k : String) : k ∈ insertKey s k := by
  unfold insertKey
  by_cases h : k ∈ s
  · rw [if_pos h]; exact h
  · rw [if_neg h]; simp

lemma mem_insertKey_of_mem {s : List String} {a : String} (k : String) (h : a ∈ s) :
    a ∈ insertKey s k := by
  unfold insertKey
  by_cases hk : k ∈ s
  · rw [if_pos hk]; exact h
  · rw [if_neg hk]; exact List.mem_append_left _ h

lemma mem_registerQualifier_of_mem :
    ∀ {ci : List ImportSpec} {s : List String} {a : String} (q : String),
      a ∈ s → a ∈ registerQualifier ci s q := by
  intro ci
  induction ci with
  | nil => intro s a q h; exact h
  | cons imp rest ih =>
    intro s a q h
    simp only [registerQualifier]
    apply ih
    cases hn : imp.name with
    | some al =>
      dsimp only
      by_cases h1 : al = q
      · rw [if_pos h1]; exact mem_insertKey_of_mem _ h
      · rw [if_neg h1]
        by_cases h2 : filepathBase imp.path = q
        · rw [if_pos h2]; exact mem_insertKey_of_mem _ h
        · rw [if_neg h2]; exact h
    | none =>
      dsimp only
      by_cases h2 : filepathBase imp.path = q
      · rw [if_pos h2]; exact mem_insertKey_of_mem _ h
      · rw [if_neg h2]; exact h

lemma registerQualifier_adds_alias :
    ∀ {ci : List ImportSpec} {imp : ImportSpec} {q : String} (s : List String),
      imp ∈ ci → imp.name = some q →
      (q ++ " " ++ imp.path) ∈ registerQualifier ci s q := by
  intro ci
  induction ci with
  | nil => intro imp q s h _; cases h
  | cons i rest ih =>
    intro imp q s hmem hname
    simp only [registerQualifier]
    cases hmem with
    | head =>
      rw [hname]
      dsimp only
      rw [if_pos rfl]
      exact mem_registerQualifier_of_mem q (mem_insertKey_self _ _)
    | tail _ hmem2 =>
      exact ih _ hmem2 hname

lemma registerQualifier_adds_base :
    ∀ {ci : List ImportSpec} {imp : ImportSpec} {q : String} (s : List String),
      imp ∈ ci → imp.name ≠ some q → filepathBase imp.path = q →
      imp.path ∈ registerQualifier ci s q := by
  intro ci
  induction ci with
  | nil => intro imp q s h _ _; cases h
  | cons i rest ih =>
    intro imp q s hmem hname hbase
    simp only [registerQualifier]
    cases hmem with
    | head =>
      cases hn : i.name with
      | some al =>
        have hal : ¬ al = q := fun he => hname (by rw [hn, he])
        dsimp only
        rw [if_neg hal, if_pos hbase]
        exact mem_registerQualifier_of_mem q (mem_insertKey_self _ _)
      | none =>
        dsimp only
        rw [if_pos hbase]
        exact mem_registerQualifier_of_mem q (mem_insertKey_self _ _)
    | tail _ hmem2 =>
      exact ih _ hmem2 hname hbase

lemma mem_regNames_of_mem :
    ∀ {tns : List String} {ci : List ImportSpec} {s : List String} {a : String},
      a ∈ s → a ∈ regNames ci s tns := by
  intro tns
  induction tns with
  | nil => intro ci s a h; exact h
  | cons tn rest ih =>
    intro ci s a h
    simp only [regNames]
    apply ih
    cases qualifierOf tn with
    | some q => exact mem_registerQualifier_of_mem q h
    | none => exact h

lemma regNames_adds :
    ∀ {tns : List String} {ci : List ImportSpec} {tn K q : String} (s : List String),
      tn ∈ tns → qualifierOf tn = some q →
      (∀ s0 : List String, K ∈ registerQualifier ci s0 q) →
      K ∈ regNames ci s tns := by
  intro tns
  induction tns with
  | nil => intro ci tn K q s h _ _; cases h
  | cons t rest ih =>
    intro ci tn K q s hmem hq hK
    simp only [regNames]
    cases hmem with
    | head =>
      rw [hq]
      exact mem_regNames_of_mem (hK s)
    | tail _ hmem2 =>
      exact ih _ hmem2 hq hK

lemma insertKey_nodup {s : List String} (k : String) (h : s.Nodup) : (insertKey s k).Nodup := by
  unfold insertKey
  by_cases hk : k ∈ s
  · rw [if_pos hk]; exact h
  · rw [if_neg hk]
    simp [List.nodup_append, h, hk]

lemma registerQualifier_nodup :
    ∀ {ci : List ImportSpec} {s : List String} (q : String),
      s.Nodup → (registerQualifier ci s q).Nodup := by
  intro ci
  induction ci with
  | nil => intro s q h; exact h
  | cons imp rest ih =>
    intro s q h
    simp only [registerQualifier]
    apply ih
    cases imp.name with
    | some al =>
      dsimp only
      by_cases h1 : al = q
      · rw [if_pos h1]; exact insertKey_nodup _ h
      · rw [if_neg h1]
        by_cases h2 : filepathBase imp.path = q
        · rw [if_pos h2]; exact insertKey_nodup _ h
        · rw [if_neg h2]; exact h
    | none =>
      dsimp only
      by_cases h2 : filepathBase imp.path = q
      · rw [if_pos h2]; exact insertKey_nodup _ h
      · rw [if_neg h2]; exact h

lemma regNames_nodup :
    ∀ {tns : List String} {ci : List ImportSpec} {s : List String},
      s.Nodup → (regNames ci s tns).Nodup := by
  intro tns
  induction tns with
  | nil => intro ci s h; exact h
  | cons tn rest ih =>
    intro ci s h
    simp only [regNames]
    apply ih
    cases qualifierOf tn with
    | some q => exact registerQualifier_nodup q h
    | none => exact h

lemma regFieldImports_nodup {ci : List ImportSpec} {imps : List String} (f : FieldNode)
    (h : imps.Nodup) : (regFieldImports ci imps f).Nodup := by
  unfold regFieldImports
  cases types f.typ with
  | error e => exact h
  | ok tns => exact regNames_nodup h

lemma fieldsImports_nodup :
    ∀ {fields : List FieldNode} {ci : List ImportSpec} {imps : List String},
      imps.Nodup → (fieldsImports ci imps fields).Nodup := by
  intro fields
  induction fields with
  | nil => intro ci imps h; exact h
  | cons f fs ih =>
    intro ci imps h
    simp only [fieldsImports]
    exact ih (regFieldImports_nodup f h)

lemma visitEntry_nodup {ci : List ImportSpec} {st st' : GenState} {e : Entry}
    (h : visitEntry ci st e = .ok st') (hn : st.Imports.Nodup) : st'.Imports.Nodup := by
  cases e with
  | embedded p te => cases h; exact hn
  | method n p params results =>
    rw [visitEntry_method_eq] at h
    cases hp : mapE fmtTy params with
    | error er => rw [hp] at h; cases h
    | ok ps =>
      rw [hp] at h
      dsimp only at h
      cases hr : mapE fmtTy (results.getD []) with
      | error er => rw [hr] at h; cases h
      | ok ts =>
        rw [hr] at h
        dsimp only at h
        by_cases hbe : hasErrType ts = true
        · rw [if_pos hbe] at h
          cases h
          exact fieldsImports_nodup (fieldsImports_nodup hn)
        · rw [if_neg hbe] at h; cases h

lemma VML_nodup {ci : List ImportSpec} {st st2 : GenState} {entries : List Entry}
    (h : VisitMethodList ci st entries = .ok st2) (hn : st.Imports.Nodup) :
    st2.Imports.Nodup :=
  foldE_preserve (fun s => s.Imports.Nodup)
    (fun _ _ _ hs hp => visitEntry_nodup hs hp) h hn

lemma Visit_nodup {typeName : String} {ws ws' : WalkState} {d : Decl}
    (h : Visit typeName ws d = .ok ws') (hn : ws.gs.Imports.Nodup) :
    ws'.gs.Imports.Nodup := by
  cases d with
  | importDecl i => cases h; exact hn
  | otherDecl => cases h; exact hn
  | typeSpec name body =>
    simp only [Visit] at h
    by_cases hm : name = typeName
    · rw [if_pos hm] at h
      cases body with
      | otherBody => cases h; exact hn
      | interfaceType entries =>
        dsimp only at h
        cases hv : VisitMethodList ws.checkImports ws.gs entries with
        | error e => rw [hv] at h; cases h
        | ok gs2 => rw [hv] at h; cases h; exact VML_nodup hv hn
    · rw [if_neg hm] at h; cases h; exact hn

lemma foldl_insertKey_nodup :
    ∀ {l : List String} {s : List String}, s.Nodup → (l.foldl insertKey s).Nodup := by
  intro l
  induction l with
  | nil => intro s h; exact h
  | cons a t ih => intro s h; exact ih (insertKey_nodup a h)

lemma initImports_nodup (importsFlag : String) : (initImports importsFlag).Nodup := by
  unfold initImports
  by_cases h : importsFlag = ""
  · rw [if_pos h]; exact List.nodup_nil
  · rw [if_neg h]; exact foldl_insertKey_nodup List.nodup_nil

lemma foldE_Visit_no_match :
    ∀ (decls : List Decl) (typeName : String) (ws : WalkState),
      (∀ d ∈ decls, matchesType typeName d = false) →
      ∃ ci2, foldE (Visit typeName) ws decls = .ok ⟨ws.gs, ci2⟩ := by
  intro decls
  induction decls with
  | nil => intro tn ws _; exact ⟨ws.checkImports, rfl⟩
  | cons d rest ih =>
    intro tn ws hall
    have htail : ∀ x ∈ rest, matchesType tn x = false :=
      fun x hx => hall x (List.mem_cons_of_mem _ hx)
    cases d with
    | importDecl i =>
      simp only [foldE, Visit]
      exact ih tn ⟨ws.gs, ws.checkImports ++ [i]⟩ htail
    | typeSpec n b =>
      have hm := hall _ (List.mem_cons_self _ _)
      simp only [matchesType, decide_eq_false_iff_not] at hm
      simp only [foldE, Visit]
      rw [if_neg hm]
      exact ih tn ws htail
    | otherDecl =>
      simp only [foldE, Visit]
      exact ih tn ws htail

/-- Claim C1 (code bug evidence): a method whose `error` result is NOT the
lexically last result — `Bad() (err error, x int)` — is nevertheless
accepted by `VisitMethodList`, because the source only checks that some
result formats to "error" (setting `hasError`), never its position or
multiplicity; its own diagnostic ("must have error as last return value")
and the README promise the last-position rule. -/
theorem C1_error_not_last_accepted :
    VisitMethodList [] ⟨[], []⟩
      [Entry.method "Bad" 1 []
        (some [⟨["err"], Expr.ident "error", 2⟩, ⟨["x"], Expr.ident "int", 3⟩])]
    = .ok ⟨[⟨"Bad", [], [⟨["X"], ["x"], "int"⟩]⟩], []⟩ := rfl

/-- Claim C2 (counterexample): a run whose requested type name ("Arith")
matches no declaration does NOT fail — it succeeds with an empty method
list, so an output file is created and written. -/
theorem C2_refuted :
    genOf (runGen "Arith" "net/rpc" "" "" "*rpc.Client" "arith"
      [Decl.typeSpec "Other" (TypeBody.interfaceType []), Decl.otherDecl])
    = some ⟨"Arith", "Arith", "arith", [], ["net/rpc"], "*rpc.Client"⟩ := rfl

/-- Claim C2 (amended): when the requested type name matches no type
declaration, generation proceeds without any error: the walk leaves the
method list empty and the run still renders and writes output. -/
theorem C2_no_match_proceeds :
    ∀ (typeName importsFlag packageFlag serviceFlag rpcClientType filePkg : String)
      (decls : List Decl),
      (∀ d ∈ decls, matchesType typeName d = false) →
      ∃ g out, runGen typeName importsFlag packageFlag serviceFlag rpcClientType filePkg decls
          = .ok (g, out) ∧ g.Methods = [] := by
  intro tn impF pkgF svcF rpcT fpkg decls h
  obtain ⟨ci2, hw⟩ := foldE_Visit_no_match decls tn ⟨⟨[], initImports impF⟩, []⟩ h
  unfold runGen walkFile
  rw [hw]
  exact ⟨_, _, rfl, rfl⟩

theorem C2_no_match_proceeds_witness :
    ∃ g out, runGen "Arith" "net/rpc" "" "" "*rpc.Client" "arith"
        [Decl.typeSpec "Other" (TypeBody.interfaceType []), Decl.otherDecl]
      = .ok (g, out) ∧ g.Methods = [] :=
  C2_no_match_proceeds "Arith" "net/rpc" "" "" "*rpc.Client" "arith"
    [Decl.typeSpec "Other" (TypeBody.interfaceType []), Decl.otherDecl] (by decide)

/-- Claim C3 (counterexample): a method with no error-typed result whose
result field is unnamed — `Foo() int` — makes extraction fail with the
unnamed-field diagnostic at the field's position (5), not with a
diagnostic citing the method's name and position (1, "Foo") as the claim
universally asserts. -/
theorem C3_refuted :
    VisitMethodList [] ⟨[], []⟩
      [Entry.method "Foo" 1 [] (some [⟨[], Expr.ident "int", 5⟩])]
      = .error (Err.unnamedField 5)
    ∧ Err.unnamedField 5 ≠ Err.missingError 1 "Foo" := ⟨rfl, by decide⟩

/-- Claim C3 (amended): for a method whose parameter and result fields all
format successfully (named, supported shapes) and whose result list holds
no result formatting to "error", extraction stops at that method with the
missing-error diagnostic citing the method's name and source position, and
no later entry of the interface is processed. -/
theorem C3_missing_error_fail_fast :
    ∀ (ci : List ImportSpec) (st : GenState) (name : String) (pos : Pos)
      (params : List FieldNode) (results : Option (List FieldNode)) (rest : List Entry),
      (∀ f ∈ params, isOkE (fmtTy f) = true) →
      (∀ f ∈ results.getD [], isOkE (fmtTy f) = true) →
      (∀ f ∈ results.getD [], ¬ printExpr f.typ = "error") →
      VisitMethodList ci st (Entry.method name pos params results :: rest)
        = .error (.missingError pos name) := by
  intro ci st name pos params results rest h1 h2 h3
  simp only [VisitMethodList, foldE]
  rw [visitEntry_method_eq]
  obtain ⟨ps, hp⟩ := mapE_ok_of_forall (fun f hf => isOkE_iff.mp (h1 f hf))
  rw [hp]
  dsimp only
  obtain ⟨ts, hr⟩ := mapE_ok_of_forall (fun f hf => isOkE_iff.mp (h2 f hf))
  rw [hr]
  dsimp only
  rw [hasErrType_false_of hr h3]
  rfl

theorem C3_missing_error_fail_fast_witness :
    VisitMethodList [] ⟨[], []⟩
      [Entry.method "Foo" 1 [] (some [⟨["x"], Expr.ident "int", 2⟩]),
       Entry.method "Later" 9 [] (some [⟨["err"], Expr.ident "error", 10⟩])]
    = .error (.missingError 1 "Foo") :=
  C3_missing_error_fail_fast [] ⟨[], []⟩ "Foo" 1 [] (some [⟨["x"], Expr.ident "int", 2⟩])
    [Entry.method "Later" 9 [] (some [⟨["err"], Expr.ident "error", 10⟩])]
    (by decide) (by decide) (by decide)

/-- Claim C4: a field with zero bound identifier names makes `formatType`
fail with the unnamed-field diagnostic at that field's source position (so
no Type record is produced for it), and any run whose matched interface
contains such a field in a method's parameters or results fails. -/
theorem C4_unnamed_field_fails :
    ∀ (field : FieldNode), field.names = [] →
      (∀ (ci : List ImportSpec) (imps : List String),
        formatType ci imps field = .error (.unnamedField field.pos))
      ∧ (∀ (typeName importsFlag packageFlag serviceFlag rpcClientType filePkg : String)
           (decls : List Decl) (entries : List Entry) (n : String) (p : Pos)
           (params : List FieldNode) (results : Option (List FieldNode)),
           Decl.typeSpec typeName (TypeBody.interfaceType entries) ∈ decls →
           Entry.method n p params results ∈ entries →
           (field ∈ params ∨ field ∈ results.getD []) →
           isOkE (runGen typeName importsFlag packageFlag serviceFlag rpcClientType
             filePkg decls) = false) := by
  intro field hnull
  constructor
  · intro ci imps
    unfold formatType fmtTy
    rw [if_pos hnull]
  · intro tn impF pkgF svcF rpcT fpkg decls entries n p params results hdecl hentry hfield
    cases hrun : runGen tn impF pkgF svcF rpcT fpkg decls with
    | error e => rfl
    | ok r =>
      exfalso
      unfold runGen at hrun
      cases hw : walkFile tn (initImports impF) decls with
      | error e => rw [hw] at hrun; cases hrun
      | ok ws =>
        unfold walkFile at hw
        obtain ⟨ws1, ws2, hv⟩ := foldE_ok_elem hw hdecl
        simp only [Visit, eq_self_iff_true, if_true] at hv
        cases hm : VisitMethodList ws1.checkImports ws1.gs entries with
        | error e => rw [hm] at hv; cases hv
        | ok gs2 => exact VML_ok_names hm hentry hfield hnull

theorem C4_witness :
    formatType [] [] ⟨[], Expr.ident "int", 7⟩ = .error (.unnamedField 7)
    ∧ isOkE (runGen "I" "" "" "" "*rpc.Client" "p"
        [Decl.typeSpec "I" (TypeBody.interfaceType
          [Entry.method "M" 1 [⟨[], Expr.ident "int", 7⟩] none])]) = false := by
  have h := C4_unnamed_field_fails ⟨[], Expr.ident "int", 7⟩ rfl
  exact ⟨h.1 [] [],
    h.2 "I" "" "" "" "*rpc.Client" "p"
      [Decl.typeSpec "I" (TypeBody.interfaceType
        [Entry.method "M" 1 [⟨[], Expr.ident "int", 7⟩] none])]
      [Entry.method "M" 1 [⟨[], Expr.ident "int", 7⟩] none]
      "M" 1 [⟨[], Expr.ident "int", 7⟩] none
      (by simp) (by simp) (Or.inl (by simp))⟩

/-- Claim C5: every Type record produced for a field has original names
equal to the declared identifiers verbatim, public names obtained by
upper-casing the first character of each original name (remainder
unchanged), both lists of the same length n with n at least 1. -/
theorem C5_name_lists :
    ∀ (field : FieldNode) (t : Ty), fmtTy field = .ok t →
      t.LowerNames = field.names
      ∧ t.Names = t.LowerNames.map upperFirst
      ∧ t.Names.length = t.LowerNames.length
      ∧ 1 ≤ t.Names.length := by
  intro f t h
  obtain ⟨hN, hL, hne⟩ := fmtTy_ok_struct h
  refine ⟨hL, by rw [hN, hL], by rw [hN, hL]; simp, ?_⟩
  rw [hN]
  simp only [List.length_map]
  exact List.length_pos.mpr hne

theorem C5_name_lists_witness :
    fmtTy ⟨["a", "b"], Expr.ident "int", 1⟩ = .ok ⟨["A", "B"], ["a", "b"], "int"⟩
    ∧ ((Ty.mk ["A", "B"] ["a", "b"] "int").LowerNames
          = (FieldNode.mk ["a", "b"] (Expr.ident "int") 1).names
       ∧ (Ty.mk ["A", "B"] ["a", "b"] "int").Names
          = (Ty.mk ["A", "B"] ["a", "b"] "int").LowerNames.map upperFirst
       ∧ (Ty.mk ["A", "B"] ["a", "b"] "int").Names.length
          = (Ty.mk ["A", "B"] ["a", "b"] "int").LowerNames.length
       ∧ 1 ≤ (Ty.mk ["A", "B"] ["a", "b"] "int").Names.length) :=
  ⟨rfl, C5_name_lists ⟨["a", "b"], Expr.ident "int", 1⟩ ⟨["A", "B"], ["a", "b"], "int"⟩ rfl⟩

/-- Claim C6: for a qualified type name `q.Name` collected from anywhere
inside a field's type expression, an import whose explicit alias equals
the qualifier gets its path registered with its alias ("q path"); and when
no import carries that alias, every import whose last path segment equals
the qualifier gets its bare path registered. -/
theorem C6_import_resolution :
    ∀ (ci : List ImportSpec) (imps : List String) (field : FieldNode) (t : Ty)
      (imps2 tns : List String) (tn q : String),
      formatType ci imps field = .ok (t, imps2) →
      types field.typ = .ok tns → tn ∈ tns → qualifierOf tn = some q →
      (∀ imp ∈ ci, imp.name = some q → (q ++ " " ++ imp.path) ∈ imps2)
      ∧ ((∀ imp ∈ ci, imp.name ≠ some q) →
          ∀ imp ∈ ci, filepathBase imp.path = q → imp.path ∈ imps2) := by
  intro ci imps field t imps2 tns tn q hfmt htypes htn hq
  have himps2 : imps2 = regNames ci imps tns := by
    unfold formatType at hfmt
    cases hf : fmtTy field with
    | error e => rw [hf] at hfmt; cases hfmt
    | ok t2 =>
      rw [hf] at hfmt
      cases hfmt
      unfold regFieldImports
      rw [htypes]
  subst himps2
  constructor
  · intro imp hmem halias
    exact regNames_adds imps htn hq
      (fun s0 => registerQualifier_adds_alias s0 hmem halias)
  · intro hall imp hmem hbase
    exact regNames_adds imps htn hq
      (fun s0 => registerQualifier_adds_base s0 hmem (hall imp hmem) hbase)

theorem C6_import_resolution_witness :
    ("t time" : String) ∈ (["t time"] : List String) := by
  have h := C6_import_resolution [⟨some "t", "time"⟩, ⟨none, "net/rpc"⟩] []
    ⟨["d"], Expr.selector (Expr.ident "t") "Duration", 1⟩
    ⟨["D"], ["d"], "t.Duration"⟩ ["t time"] ["t.Duration"] "t.Duration" "t"
    rfl rfl (List.mem_singleton.mpr rfl) rfl
  exact h.1 ⟨some "t", "time"⟩ (List.mem_cons_self _ _) rfl

/-- Claim C7: the `types` traversal succeeds on every expression built
only from identifiers, pointers, qualified selectors, maps and
array/slices, and any other top-level expression shape (function, channel,
struct) makes it abort with the internal unknown-expression error. -/
theorem C7_types_total_on_supported :
    ∀ e : Expr,
      (supported e = true → isOkE (types e) = true)
      ∧ ((e = Expr.funcType ∨ e = Expr.chanType ∨ e = Expr.structType) →
          types e = .error Err.unknownExpr) := by
  intro e
  constructor
  · induction e with
    | ident n => intro _; rfl
    | star x ih =>
      intro hs
      simp only [supported] at hs
      simp only [types]
      exact ih hs
    | selector x sel ih =>
      intro hs
      simp only [supported] at hs
      obtain ⟨xs, hxs⟩ := isOkE_iff.mp (ih hs)
      simp only [types]
      rw [hxs]
      rfl
    | mapType k v ihk ihv =>
      intro hs
      simp only [supported, Bool.and_eq_true] at hs
      obtain ⟨ks, hks⟩ := isOkE_iff.mp (ihk hs.1)
      obtain ⟨vs, hvs⟩ := isOkE_iff.mp (ihv hs.2)
      simp only [types]
      rw [hks]
      dsimp only
      rw [hvs]
      rfl
    | arrayType len elt ih =>
      intro hs
      simp only [supported] at hs
      simp only [types]
      exact ih hs
    | funcType => intro hs; simp [supported] at hs
    | chanType => intro hs; simp [supported] at hs
    | structType => intro hs; simp [supported] at hs
  · intro h
    rcases h with h | h | h <;> subst h <;> rfl

theorem C7_types_total_on_supported_witness :
    isOkE (types (Expr.star (Expr.ident "int"))) = true
    ∧ types Expr.funcType = .error Err.unknownExpr :=
  ⟨(C7_types_total_on_supported (Expr.star (Expr.ident "int"))).1 rfl,
   (C7_types_total_on_supported Expr.funcType).2 (Or.inl rfl)⟩

/-- Claim C8 (counterexample): referencing `t.Duration` under the explicit
alias `t "time"` while the configuration already lists "time" puts two
keys resolving to the import path "time" into the final import set
("time" and "t time"), so the path is rendered twice. -/
theorem C8_refuted :
    (genOf (runGen "I" "time" "" "" "*rpc.Client" "p"
      [Decl.importDecl ⟨some "t", "time"⟩,
       Decl.typeSpec "I" (TypeBody.interfaceType
         [Entry.method "M" 1 [⟨["d"], Expr.selector (Expr.ident "t") "Duration", 2⟩]
           (some [⟨["err"], Expr.ident "error", 3⟩])])])).map
      (fun g => countOcc "time" g.Imports)
    = some 2 := rfl

/-- Claim C8 (amended): each registration key — a bare path or an
alias-qualified "alias path" string — occurs at most once in the final
set of imports of any successful run; the same underlying path may
still occur under both an aliased and a bare key. -/
theorem C8_keys_nodup :
    ∀ (typeName importsFlag packageFlag serviceFlag rpcClientType filePkg : String)
      (decls : List Decl) (g : Gen),
      genOf (runGen typeName importsFlag packageFlag serviceFlag rpcClientType
        filePkg decls) = some g →
      g.Imports.Nodup := by
  intro tn impF pkgF svcF rpcT fpkg decls g h
  unfold genOf runGen at h
  cases hw : walkFile tn (initImports impF) decls with
  | error e => rw [hw] at h; cases h
  | ok ws =>
    rw [hw] at h
    dsimp only at h
    cases h
    unfold walkFile at hw
    exact foldE_preserve (fun w => w.gs.Imports.Nodup)
      (fun _ _ _ hs hp => Visit_nodup hs hp) hw (initImports_nodup impF)

theorem C8_keys_nodup_witness :
    (["time", "t time"] : List String).Nodup :=
  C8_keys_nodup "I" "time" "" "" "*rpc.Client" "p"
    [Decl.importDecl ⟨some "t", "time"⟩,
     Decl.typeSpec "I" (TypeBody.interfaceType
       [Entry.method "M" 1 [⟨["d"], Expr.selector (Expr.ident "t") "Duration", 2⟩]
         (some [⟨["err"], Expr.ident "error", 3⟩])])]
    ⟨"I", "I", "p", [⟨"M", [⟨["D"], ["d"], "t.Duration"⟩], []⟩], ["time", "t time"],
      "*rpc.Client"⟩
    rfl

/-- Claim C9: a successful extraction yields exactly the declaration-order
translation of the interface entries (methods in source order, each with
its parameters in order and its non-error results in order), and the
rendered output decomposes into one server group and one client group per
extracted method, concatenated in that same order. -/
theorem C9_order_preserved :
    ∀ (ci : List ImportSpec) (imps0 : List String) (entries : List Entry) (st2 : GenState),
      VisitMethodList ci ⟨[], imps0⟩ entries = .ok st2 →
      entriesOut entries = .ok st2.Methods
      ∧ st2.Methods.map Method.Name = declaredNames entries
      ∧ ∀ g : Gen, render g =
          renderHeader g ++ joinStrs (g.Methods.map (serverGroup g.Typ))
            ++ renderClientHeader g ++ joinStrs (g.Methods.map (clientGroup g.Typ g.Service)) := by
  intro ci imps0 entries st2 h
  obtain ⟨ms, h1, h2⟩ := VML_spec h
  have hms : st2.Methods = ms := by simpa using h2
  refine ⟨by rw [hms]; exact h1, by rw [hms]; exact entriesOut_names h1, ?_⟩
  intro g
  unfold render
  rw [serverBlocks_eq, clientBlocks_eq]

theorem C9_order_preserved_witness :
    entriesOut [Entry.method "Add" 1 [⟨["a", "b"], Expr.ident "int", 2⟩]
        (some [⟨["result"], Expr.ident "int", 3⟩, ⟨["err"], Expr.ident "error", 4⟩])]
      = .ok [⟨"Add", [⟨["A", "B"], ["a", "b"], "int"⟩], [⟨["Result"], ["result"], "int"⟩]⟩]
    ∧ ([⟨"Add", [⟨["A", "B"], ["a", "b"], "int"⟩],
          [⟨["Result"], ["result"], "int"⟩]⟩] : List Method).map Method.Name
        = declaredNames [Entry.method "Add" 1 [⟨["a", "b"], Expr.ident "int", 2⟩]
            (some [⟨["result"], Expr.ident "int", 3⟩, ⟨["err"], Expr.ident "error", 4⟩])] := by
  have h := C9_order_preserved [] []
    [Entry.method "Add" 1 [⟨["a", "b"], Expr.ident "int", 2⟩]
      (some [⟨["result"], Expr.ident "int", 3⟩, ⟨["err"], Expr.ident "error", 4⟩])]
    ⟨[⟨"Add", [⟨["A", "B"], ["a", "b"], "int"⟩], [⟨["Result"], ["result"], "int"⟩]⟩], []⟩ rfl
  exact ⟨h.1, h.2.1⟩

/-- Claim C10: a method-list entry whose type is not a function signature
(an embedded interface name) is skipped silently — no Method record, no
validation, no error — and an interface whose entries are all embedded
yields a successful extraction with zero methods. -/
theorem C10_embedded_skipped :
    ∀ (ci : List ImportSpec) (st : GenState),
      (∀ (p : Pos) (te : Expr), visitEntry ci st (Entry.embedded p te) = .ok st)
      ∧ ∀ entries : List Entry,
          (∀ e ∈ entries, ∃ p te, e = Entry.embedded p te) →
          VisitMethodList ci st entries = .ok st := by
  intro ci st
  refine ⟨fun p te => rfl, ?_⟩
  intro entries
  induction entries with
  | nil => intro _; rfl
  | cons e rest ih =>
    intro h
    obtain ⟨p, te, he⟩ := h e (List.mem_cons_self e rest)
    subst he
    simp only [VisitMethodList, foldE, visitEntry] at ih ⊢
    exact ih (fun x hx => h x (List.mem_cons_of_mem _ hx))

theorem C10_embedded_skipped_witness :
    VisitMethodList [] ⟨[], []⟩
      [Entry.embedded 1 (Expr.selector (Expr.ident "io") "Reader")] = .ok ⟨[], []⟩ :=
  (C10_embedded_skipped [] ⟨[], []⟩).2 _
    (by intro e he; rw [List.mem_singleton] at he
        exact ⟨1, Expr.selector (Expr.ident "io") "Reader", he⟩)
